import Mathlib

/-!
Verification of the persistent-bash command-execution core of
openhands-runtime-go.

The Go sources are shallowly embedded: pure string manipulation
(quoting, sentinel parsing, path resolution) becomes Lean functions on
`String` / `List Char`; the coordinator's select loop becomes a fold
over an explicit event trace; the session mutex becomes a small labelled
transition system.  Each definition's doc comment names the Go function
it is translated from.
-/

namespace OpenhandsRuntime

/-- The single-quote character, written via its code point. -/
def sqc : Char := Char.ofNat 39

/-- The backslash character, written via its code point. -/
def bslc : Char := Char.ofNat 92

/-- Translated from `bashCommandTerminatorPrefix = "__OPENHANDS_COMMAND_DONE__"`
(src/unnamed/part_008:34, src/pkg/executor/bash_session.go:15). -/
def terminatorPfx : String := "__OPENHANDS_COMMAND_DONE__"

/-- Character list of the terminator marker. -/
def terminatorPfxL : List Char := terminatorPfx.toList

/-- The four-character replacement Go writes for each embedded single
quote: quote, backslash, quote, quote (the Go literal is the string of
those four characters). -/
def escSq : List Char := [sqc, bslc, sqc, sqc]

/-- `strings.ReplaceAll(path, single-quote, escSq)` for the single-character
pattern used by `QuotePathForBash`: every single quote becomes `escSq`,
every other character is kept. -/
def replSq : List Char → List Char
  | [] => []
  | c :: cs => (if c = sqc then escSq else [c]) ++ replSq cs

/-- Translated from `QuotePathForBash` (src/pkg/executor/bash_session.go:197-199,
src/unnamed/part_008:59-61): wrap the path in single quotes and replace
every embedded single quote by the four-character escape. -/
def QuotePathForBash (path : String) : String :=
  String.mk (sqc :: (replSq path.toList ++ [sqc]))

/-- POSIX shell word interpretation restricted to the constructs a
single-quoted path can produce: outside quotes (`inQ = false`) a single
quote opens a quoted span, a backslash escapes the next character, any
other character stands for itself; inside single quotes (`inQ = true`)
every character except the closing quote stands for itself.  `none`
means the word is malformed (unterminated quote or dangling backslash). -/
def shInterp : Bool → List Char → Option (List Char)
  | false, [] => some []
  | false, c :: cs =>
    if c = sqc then shInterp true cs
    else if c = bslc then
      match cs with
      | [] => none
      | d :: ds => (shInterp false ds).map (fun t => d :: t)
    else (shInterp false cs).map (fun t => c :: t)
  | true, [] => none
  | true, c :: cs =>
    if c = sqc then shInterp false cs
    else (shInterp true cs).map (fun t => c :: t)

/-! ## Sentinel line parsing (stdout reader of executeCmdRun) -/

/-- The space character. -/
def spc : Char := Char.ofNat 32

/-- Whitespace test used by Go's `strings.Fields` / `strings.TrimSpace`
(`unicode.IsSpace`), restricted to the ASCII whitespace characters:
space, tab, newline, vertical tab, form feed, carriage return. -/
def isSpc (c : Char) : Bool :=
  c == Char.ofNat 32 || c == Char.ofNat 9 || c == Char.ofNat 10 ||
  c == Char.ofNat 11 || c == Char.ofNat 12 || c == Char.ofNat 13

/-- Models `strings.TrimPrefix`: drop `pfx` when it heads `l`. -/
def goTrimPfx (pfx l : List Char) : List Char :=
  if pfx <+: l then l.drop pfx.length else l

/-- Left half of `strings.TrimSpace`. -/
def goTrimLeftSpace (l : List Char) : List Char := l.dropWhile isSpc

/-- Right half of `strings.TrimSpace`. -/
def goTrimRightSpace (l : List Char) : List Char :=
  (l.reverse.dropWhile isSpc).reverse

/-- Models `strings.TrimSpace`: strip whitespace from both ends. -/
def goTrimSpace (l : List Char) : List Char :=
  goTrimRightSpace (goTrimLeftSpace l)

/-- Worker for `goFields`; `acc` is the current word, reversed. -/
def fieldsGo : List Char → List Char → List (List Char)
  | acc, [] => if acc = [] then [] else [acc.reverse]
  | acc, c :: cs =>
    if isSpc c then
      if acc = [] then fieldsGo [] cs else acc.reverse :: fieldsGo [] cs
    else fieldsGo (c :: acc) cs

/-- Models `strings.Fields`: split the line around runs of whitespace,
dropping empty fields. -/
def goFields (l : List Char) : List (List Char) := fieldsGo [] l

/-- Models `strings.Join(parts, " ")`: interleave a single space between
the words. -/
def joinWords : List (List Char) → List Char
  | [] => []
  | [w] => w
  | w :: ws => w ++ spc :: joinWords ws

/-- Models `fmt.Sscanf(s, "%d", &n)` on one whitespace-free field: an
optional sign followed by at least one decimal digit; any trailing
non-digit characters are left unconsumed (as Sscanf does once the verb
matched).  `none` when no integer could be scanned. -/
def goScanInt (l : List Char) : Option Int :=
  match l with
  | [] => none
  | c :: cs =>
    let signRest : Bool × List Char :=
      if c = Char.ofNat 45 then (true, cs)
      else if c = Char.ofNat 43 then (false, cs)
      else (false, l)
    match signRest.2 with
    | [] => none
    | d :: _ =>
      if d.isDigit then
        let n : Nat := (signRest.2.takeWhile Char.isDigit).foldl
          (fun acc ch => acc * 10 + (ch.toNat - 48)) 0
        some (if signRest.1 then -(n : Int) else (n : Int))
      else none

/-- Translated from the terminator branch of the stdout reader in
`executeCmdRun` (src/unnamed/part_008:337-354, src/unnamed/part_011:195-211):
trim the marker and surrounding whitespace, split into fields, scan the
first field as the exit code (keeping the initialized `-1` when the scan
fails or there is no field), and space-join the remaining fields as the
new working directory (empty when absent). -/
def parseTerminator (line : List Char) : Int × List Char :=
  let trimmedLine := goTrimSpace (goTrimPfx terminatorPfxL line)
  let parts := goFields trimmedLine
  match parts with
  | [] => (-1, [])
  | p0 :: rest =>
    let code : Int := match goScanInt p0 with | some n => n | none => -1
    (code, joinWords rest)

/-- What the stdout reader does with one line (src/unnamed/part_008:335-359):
a line carrying the terminator marker is parsed and signals completion
(`close(doneChan)`), every other line is forwarded, newline-appended, as
command output. -/
inductive LineClass
  | done (exitCode : Int) (newPwd : String)
  | output (chunk : String)
  deriving DecidableEq, Repr

/-- Translated from the per-line body of the stdout reader goroutine in
`executeCmdRun` (src/unnamed/part_008:335-359). -/
def classifyStdoutLine (line : String) : LineClass :=
  if terminatorPfxL <+: line.toList then
    let r := parseTerminator line.toList
    .done r.1 (String.mk r.2)
  else .output (line ++ "\n")

/-! ## Working-directory resolution (executeCmdRun, part_008:277-286) -/

/-- Models `path/filepath.IsAbs` on Unix: the path starts with a slash. -/
def filepathIsAbs (p : String) : Bool :=
  match p.toList with
  | [] => false
  | c :: _ => c == '/'

/-- The backtracking truncation of Go's `lazybuf` in `filepath.Clean`'s
dotdot case: starting just past the freshly removed last character, walk
left while above the dotdot barrier and not on a slash, and keep the
buffer up to (excluding) the stop position. -/
def cleanBacktrackW (out : List Char) (dotdot : Nat) : Nat → Nat
  | 0 => 0
  | w + 1 =>
    if dotdot < w + 1 ∧ out.getD (w + 1) '/' ≠ '/' then cleanBacktrackW out dotdot w
    else w + 1

/-- Main loop of `path/filepath.Clean` (Unix rules), fuelled by the input
length so that the definition is structurally recursive and kernel-
evaluable; every iteration consumes at least one input character, so
fuel `= length of the remaining input` never runs out. -/
def cleanLoopF : Nat → Bool → List Char → Nat → List Char → List Char
  | 0, _, out, _, _ => out
  | _ + 1, _, out, _, [] => out
  | f + 1, rooted, out, dotdot, c :: cs =>
    if c = '/' then cleanLoopF f rooted out dotdot cs
    else if c = '.' ∧ (cs = [] ∨ cs.head? = some '/') then
      cleanLoopF f rooted out dotdot cs
    else if c = '.' ∧ cs.head? = some '.' ∧
        (cs.tail = [] ∨ cs.tail.head? = some '/') then
      if dotdot < out.length then
        cleanLoopF f rooted (out.take (cleanBacktrackW out dotdot (out.length - 1)))
          dotdot cs.tail
      else if ¬rooted then
        let out2 := (if 0 < out.length then out ++ ['/'] else out) ++ ['.', '.']
        cleanLoopF f rooted out2 out2.length cs.tail
      else cleanLoopF f rooted out dotdot cs.tail
    else
      let sep : List Char :=
        if (rooted ∧ out.length ≠ 1) ∨ (¬rooted ∧ out.length ≠ 0) then ['/'] else []
      cleanLoopF f rooted (out ++ sep ++ (c :: cs).takeWhile (fun d => d ≠ '/'))
        dotdot ((c :: cs).dropWhile (fun d => d ≠ '/'))

/-- Translated from `path/filepath.Clean` (Unix): empty input becomes
".", a rooted path keeps its leading slash, `.` elements are dropped,
`..` elements backtrack (or accumulate at the front of a relative
path), and an empty result becomes ".". -/
def filepathClean (p : String) : String :=
  let l := p.toList
  if l = [] then "."
  else
    let rooted := l.head? = some '/'
    let out0 : List Char := if rooted then ['/'] else []
    let dd0 : Nat := if rooted then 1 else 0
    let out := cleanLoopF l.length rooted out0 dd0 l
    if out = [] then "." else String.mk out

/-- Translated from `path/filepath.Join` specialised to the two-argument
call in `executeCmdRun`: empty elements are skipped, the rest are joined
with a slash, and the result is cleaned; all-empty input yields "". -/
def filepathJoin (a b : String) : String :=
  if a = "" ∧ b = "" then ""
  else if a = "" then filepathClean b
  else if b = "" then filepathClean a
  else filepathClean (a ++ "/" ++ b)

/-- Translated from the working-directory resolution in `executeCmdRun`
(src/unnamed/part_008:277-285, src/unnamed/part_011:134-142): no
override keeps the session cwd; an absolute override is taken as-is, a
relative one is joined against the session cwd; the override branch then
cleans the result. -/
def resolveTargetWd (currentBashCwd actionCwd : String) : String :=
  if actionCwd = "" then currentBashCwd
  else
    let targetWd :=
      if filepathIsAbs actionCwd then actionCwd
      else filepathJoin currentBashCwd actionCwd
    filepathClean targetWd

/-! ## Timeout derivation (part_008:309-314 vs cmd_execution.go:41-47) -/

/-- Translated from `executeCmdRun` in the persistent-bash coordinator
(src/unnamed/part_008:309-314, src/unnamed/part_011:166-171): a deadline
is derived from the caller's context only when `HardTimeout > 0`;
otherwise (`none`) the scope is bound only by the caller's own
cancellation. -/
def persistentCmdDeadline (hardTimeout : Int) : Option Int :=
  if 0 < hardTimeout then some hardTimeout else none

/-- Translated from `defaultCommandTimeout = 300`
(src/pkg/executor/cmd_execution.go:19). -/
def defaultCommandTimeout : Int := 300

/-- Translated from `executeCmdRun` in src/pkg/executor/cmd_execution.go:41-47:
`timeout := defaultCommandTimeout; if action.HardTimeout > 0 { timeout =
action.HardTimeout }` followed by an unconditional
`context.WithTimeout`, so a deadline is always imposed. -/
def streamingCmdDeadline (hardTimeout : Int) : Option Int :=
  some (if 0 < hardTimeout then hardTimeout else defaultCommandTimeout)

/-- Translated from `executeCmdRun` (src/unnamed/part_008:295-300):
an empty command string is replaced by the no-op `true`. -/
def actualCommandToRunInBash (command : String) : String :=
  if command = "" then "true" else command

/-- Translated from the `wrappedCommand` format string in `executeCmdRun`
(src/unnamed/part_008:302-307, src/unnamed/part_011:159-164): change into
the quoted target directory, capture the cd exit code, run the (possibly
substituted) command in a subshell when cd succeeded, otherwise propagate
the cd exit code, then echo the terminator with the exit code and the
current directory. -/
def wrappedCommand (targetWd command : String) : String :=
  "cd " ++ QuotePathForBash targetWd ++
  "; CD_EXIT_CODE=$?; if [ $CD_EXIT_CODE -eq 0 ]; then (" ++
  actualCommandToRunInBash command ++
  "); CMD_EXIT_CODE=$?; else CMD_EXIT_CODE=$CD_EXIT_CODE; fi; NEW_PWD=$(pwd); echo " ++
  terminatorPfx ++ " $CMD_EXIT_CODE $NEW_PWD\n"

/-- An abstract shell environment for evaluating the emitted fragment:
`dirOk d` says whether `cd d` succeeds, `exec c` gives the exit code of
running the (nonempty) command `c` in a subshell.  Bash itself is not
repository code; this models the fragment semantics stated in spec §4.2. -/
structure ShellWorld where
  dirOk : String → Bool
  exec : String → Int

/-- Exit code of `cd d` in bash: 0 on success, 1 on failure. -/
def cdExitCode (w : ShellWorld) (d : String) : Int :=
  if w.dirOk d then 0 else 1

/-- Exit code of `( c )`: the POSIX `true` utility always exits 0,
anything else is given by the abstract world. -/
def subshellExitCode (w : ShellWorld) (c : String) : Int :=
  if c = "true" then 0 else w.exec c

/-- Evaluates the §4.2 fragment `cd <wd>; CD_EXIT_CODE=$?; if ... fi;
NEW_PWD=$(pwd); ...` in the abstract world: result is
`(CMD_EXIT_CODE, NEW_PWD)`.  The inner command runs in a subshell, so it
cannot move the shell; `NEW_PWD` is the target directory when `cd`
succeeded and the previous directory otherwise. -/
def evalWrappedCommand (w : ShellWorld) (cwd0 targetWd command : String) :
    Int × String :=
  let cd := cdExitCode w targetWd
  let code := if cd = 0 then subshellExitCode w (actualCommandToRunInBash command)
    else cd
  let newPwd := if cd = 0 then targetWd else cwd0
  (code, newPwd)

/-- The line `echo <terminator> $CMD_EXIT_CODE $NEW_PWD` writes (word
splitting of a whitespace-normal `NEW_PWD` is the identity and is not
modelled further). -/
def sentinelLineFor (code : Int) (newPwd : String) : String :=
  terminatorPfx ++ " " ++ toString code ++ " " ++ newPwd

/-- A world in which no directory exists, so every `cd` fails. -/
def noDirsWorld : ShellWorld :=
  { dirOk := fun _ => false, exec := fun _ => 0 }

/-- A world in which every directory exists, so every `cd` succeeds. -/
def allDirsWorld : ShellWorld :=
  { dirOk := fun _ => true, exec := fun _ => 0 }

/-! ## Execution coordinator main loop (part_008:316-467) -/

/-- Boolean test: does the first list head the second? -/
def hasPfxB : List Char → List Char → Bool
  | [], _ => true
  | _ :: _, [] => false
  | p :: ps, c :: cs => p == c && hasPfxB ps cs

/-- Models `strings.Contains` on character lists. -/
def containsSub : List Char → List Char → Bool
  | [], pat => pat.isEmpty
  | l@(_ :: rest), pat => hasPfxB pat l || containsSub rest pat

/-- `strings.Contains` on strings. -/
def strContainsB (s pat : String) : Bool := containsSub s.toList pat.toList

/-- Per-invocation coordinator state: the accumulating output buffer,
the (shared) exit-code and session-cwd variables, whether the SIGINT
path ran, and whether `mainLoop` has been broken out of. -/
structure CoordSt where
  buffer : String
  exitCode : Int
  sessionCwd : String
  cancellerInvoked : Bool
  returned : Bool
  deriving DecidableEq, Repr

/-- State at the top of `mainLoop`: empty buffer, `cmdExitCode = -1`,
the session's current cwd (src/unnamed/part_008:323,405). -/
def initCoordSt (cwd : String) : CoordSt :=
  { buffer := "", exitCode := -1, sessionCwd := cwd,
    cancellerInvoked := false, returned := false }

/-- One firing of the `select` in `mainLoop`: an output line was
delivered, the output channel was closed, an I/O error arrived, the
done channel became ready (carrying the exit code and pwd the stdout
reader parsed before closing it), or the command context expired. -/
inductive BashEvent
  | outLine (s : String)
  | outClosed
  | ioErr (msg : String)
  | doneSig (code : Int) (pwd : String)
  | ctxDone
  deriving DecidableEq, Repr

/-- Rendering of the Go `time.Duration` inserted into the timeout
notice; only sub-minute whole-second durations are rendered (the claims
depend only on the fixed marker text before it). -/
def goDurationStr (seconds : Int) : String := toString seconds ++ "s"

/-- Fixed marker text of the timeout notice. -/
def timeoutMarker : String := "[Command timed out after "

/-- The notice appended on the `cmdCtx.Done()` branch
(src/unnamed/part_008:430). -/
def timeoutNotice (hardTimeout : Int) : String :=
  "\n" ++ (timeoutMarker ++ (goDurationStr hardTimeout ++ " or was cancelled.]\n"))

/-- Translated from the `select` body of `mainLoop` in `executeCmdRun`
(src/unnamed/part_008:407-448): an output line is appended; a closed
output channel breaks the loop; an I/O error appends a diagnostic and
keeps waiting; the done signal records the parsed exit code and, when
nonempty, persists the new cwd — and does NOT break the loop; context
expiry appends the timeout notice, attempts SIGINT on the process group
(when the session has a live process), forces exit code −1 and breaks. -/
def loopStep (hardTimeout : Int) (hasProcess : Bool) (st : CoordSt)
    (ev : BashEvent) : CoordSt :=
  if st.returned then st
  else match ev with
    | .outLine s => { st with buffer := st.buffer ++ s }
    | .outClosed => { st with returned := true }
    | .ioErr msg =>
      { st with buffer := st.buffer ++ ("\n[EXECUTOR_IO_ERROR: " ++ msg ++ "]\n") }
    | .doneSig code pwd =>
      if pwd ≠ "" then { st with exitCode := code, sessionCwd := pwd }
      else { st with exitCode := code }
    | .ctxDone =>
      { st with buffer := st.buffer ++ timeoutNotice hardTimeout,
                cancellerInvoked := hasProcess, exitCode := -1, returned := true }

/-- The main loop over a trace of select firings. -/
def runMainLoop (hardTimeout : Int) (hasProcess : Bool) (st0 : CoordSt)
    (events : List BashEvent) : CoordSt :=
  events.foldl (loopStep hardTimeout hasProcess) st0

/-- The fields of `models.CmdRunAction` used by `executeCmdRun`. -/
structure CmdRunActionM where
  command : String
  cwd : String
  hardTimeout : Int
  deriving DecidableEq, Repr

/-- The session state `executeCmdRun` touches: the current bash cwd and
whether `e.bashCmd`/`e.bashCmd.Process` is live (the guard of the
SIGINT path). -/
structure BashSessionSt where
  currentBashCwd : String
  hasProcess : Bool
  deriving DecidableEq, Repr

/-- The observation value `executeCmdRun` returns: either an
`ErrorObservation` (error type and content) or a `CmdOutputObservation`
(content and exit code). -/
inductive Obs
  | errorObs (errorType content : String)
  | cmdObs (content : String) (exitCode : Int)
  deriving DecidableEq, Repr

/-- Content of the observation. -/
def Obs.contentOf : Obs → String
  | .errorObs _ c => c
  | .cmdObs c _ => c

/-- Exit code of a command observation. -/
def Obs.exitCodeOf : Obs → Option Int
  | .errorObs _ _ => none
  | .cmdObs _ k => some k

/-- Error type of an error observation. -/
def Obs.errorTypeOf : Obs → Option String
  | .errorObs t _ => some t
  | .cmdObs _ _ => none

/-- Everything `executeCmdRun` gives back: the observation, the Go-level
`error` return (always nil — errors are folded into observations), the
fact that the deferred `bashMutex.Unlock()` ran, whether the process
group canceller was invoked, and the session cwd after the call. -/
structure CmdRunOutcome where
  obs : Obs
  goErr : Option String
  lockReleased : Bool
  cancellerInvoked : Bool
  finalSessionCwd : String
  deriving DecidableEq, Repr

/-- Translated from `executeCmdRun` (src/unnamed/part_008:270-467):
resolve the working directory, encode the wrapped command; if writing it
to bash stdin fails, return an `ErrorObservation` of type `BashIOError`
with nil Go error (the deferred unlock still runs); otherwise run the
main loop over the trace of select firings and return a
`CmdOutputObservation` carrying the accumulated buffer and exit code. -/
def executeCmdRunModel (session : BashSessionSt) (action : CmdRunActionM)
    (writeErr : Option String) (events : List BashEvent) : CmdRunOutcome :=
  let targetWd := resolveTargetWd session.currentBashCwd action.cwd
  let _wrapped := wrappedCommand targetWd action.command
  match writeErr with
  | some msg =>
    { obs := .errorObs "BashIOError"
        ("Failed to write command to bash stdin: " ++ msg),
      goErr := none, lockReleased := true, cancellerInvoked := false,
      finalSessionCwd := session.currentBashCwd }
  | none =>
    let final := runMainLoop action.hardTimeout session.hasProcess
      (initCoordSt session.currentBashCwd) events
    { obs := .cmdObs final.buffer final.exitCode, goErr := none,
      lockReleased := true, cancellerInvoked := final.cancellerInvoked,
      finalSessionCwd := final.sessionCwd }

/-- An event does not break the main loop when it is neither a channel
close nor a context expiry (claim C1 additionally excludes completion
signals: the command did not finish in time). -/
def nonBreaking (ev : BashEvent) : Prop :=
  ev ≠ .outClosed ∧ ev ≠ .ctxDone ∧ ∀ code pwd, ev ≠ .doneSig code pwd

/-! ## Session mutex serialization (bashMutex) -/

/-- Where one invocation of `executeCmdRun` stands with respect to the
session mutex: before `e.bashMutex.Lock()` returns, inside the body
(holding the lock, driving the one shared shell process), or returned
(the deferred `Unlock` has run).  Modelled from the lock discipline at
src/unnamed/part_008:274-275 and src/pkg/executor/bash_session.go:20-21:
the whole body runs between `Lock()` and a deferred `Unlock()`. -/
inductive InvocationPhase
  | waiting
  | running
  | finished
  deriving DecidableEq, Repr

/-- Joint state of two concurrent invocations and the mutex owner
(`none` = free, `some false` = first caller, `some true` = second). -/
structure TwoInvocations where
  first : InvocationPhase
  second : InvocationPhase
  lockOwner : Option Bool
  deriving DecidableEq, Repr

/-- The possible atomic transitions: a caller acquires the free mutex
and enters the body, or a caller inside the body returns and the
deferred unlock frees the mutex. -/
inductive BashLockStep : TwoInvocations → TwoInvocations → Prop
  | acquireFirst (p2 : InvocationPhase) :
      BashLockStep ⟨.waiting, p2, none⟩ ⟨.running, p2, some false⟩
  | acquireSecond (p1 : InvocationPhase) :
      BashLockStep ⟨p1, .waiting, none⟩ ⟨p1, .running, some true⟩
  | releaseFirst (p2 : InvocationPhase) (o : Option Bool) :
      BashLockStep ⟨.running, p2, o⟩ ⟨.finished, p2, none⟩
  | releaseSecond (p1 : InvocationPhase) (o : Option Bool) :
      BashLockStep ⟨p1, .running, o⟩ ⟨p1, .finished, none⟩

/-- States reachable from both invocations waiting and the mutex free. -/
inductive BashLockReachable : TwoInvocations → Prop
  | init : BashLockReachable ⟨.waiting, .waiting, none⟩
  | step {s t : TwoInvocations} :
      BashLockReachable s → BashLockStep s t → BashLockReachable t

/-- The mutex invariant: an invocation is inside the body exactly when
it owns the lock. -/
def LockInv (s : TwoInvocations) : Prop :=
  (s.first = .running ↔ s.lockOwner = some false) ∧
    (s.second = .running ↔ s.lockOwner = some true)

/-! ## Output registry fan-out (stdoutDistributor) -/

/-- A buffered Go channel with no waiting receiver: a capacity and the
lines currently buffered. -/
structure BoundedChan where
  capacity : Nat
  buffered : List String
  deriving DecidableEq, Repr

/-- Models the non-blocking send `select { case ch <- line: default: }`
used by `stdoutDistributor` (src/pkg/executor/bash_session.go:118-126)
and `handleBashStdout` (bash_session.go:83-89): the line is delivered
when the buffer has room, otherwise the channel is left unchanged and
the send reports failure (the line is dropped and logged) — the sender
never waits. -/
def chanTrySend (ch : BoundedChan) (line : String) : BoundedChan × Bool :=
  if ch.buffered.length < ch.capacity then
    ({ ch with buffered := ch.buffered ++ [line] }, true)
  else (ch, false)

/-- Translated from the fan-out loop of `stdoutDistributor`
(src/pkg/executor/bash_session.go:115-131): under the registry read
lock, try a non-blocking send of the line to every registered command
output channel. -/
def distributeLine (chans : List BoundedChan) (line : String) : List BoundedChan :=
  chans.map (fun ch => (chanTrySend ch line).1)


lemma shInterp_false_sq (x : List Char) :
    shInterp false (sqc :: x) = shInterp true x := by
  rw [shInterp.eq_def]; simp

lemma shInterp_true_sq (x : List Char) :
    shInterp true (sqc :: x) = shInterp false x := by
  rw [shInterp]; simp

lemma shInterp_false_bsl (d : Char) (x : List Char) :
    shInterp false (bslc :: d :: x) = (shInterp false x).map (fun t => d :: t) := by
  rw [shInterp]; simp [sqc, bslc]

lemma shInterp_true_other (c : Char) (hc : c ≠ sqc) (x : List Char) :
    shInterp true (c :: x) = (shInterp true x).map (fun t => c :: t) := by
  rw [shInterp]; simp [hc]

lemma shInterp_replSq (p : List Char) (s : List Char) :
    shInterp true (replSq p ++ sqc :: s) =
      (shInterp false s).map (fun t => p ++ t) := by
  induction p with
  | nil =>
    rw [replSq, List.nil_append, shInterp_true_sq]
    cases shInterp false s <;> simp
  | cons c cs ih =>
    by_cases hc : c = sqc
    · subst hc
      rw [replSq, if_pos rfl]
      show shInterp true
        (sqc :: (bslc :: (sqc :: (sqc :: (replSq cs ++ sqc :: s))))) = _
      rw [shInterp_true_sq, shInterp_false_bsl, shInterp_false_sq, ih]
      cases shInterp false s <;> simp
    · rw [replSq, if_neg hc]
      show shInterp true (c :: (replSq cs ++ sqc :: s)) = _
      rw [shInterp_true_other c hc, ih]
      cases shInterp false s <;> simp

/-- C3: `QuotePathForBash p` wraps `p` in single quotes, replacing each
embedded single quote by the four-character escape, and interpreting the
result under POSIX shell quoting yields exactly `p`: paths with spaces
or quotes survive unmangled. -/
theorem quotePathForBash_roundtrip (p : String) :
    shInterp false (QuotePathForBash p).toList = some p.toList := by
  have hdata : (QuotePathForBash p).toList = sqc :: (replSq p.toList ++ [sqc]) := rfl
  rw [hdata, shInterp_false_sq]
  have : replSq p.toList ++ [sqc] = replSq p.toList ++ sqc :: [] := rfl
  rw [this, shInterp_replSq]
  simp [shInterp]

lemma fieldsGo_append_word (w : List Char) (hw : ∀ c ∈ w, isSpc c = false) :
    ∀ acc r : List Char, fieldsGo acc (w ++ r) = fieldsGo (w.reverse ++ acc) r := by
  induction w with
  | nil => intro acc r; simp
  | cons c w' ih =>
    intro acc r
    have hc : isSpc c = false := hw c (List.mem_cons_self c w')
    have hw' : ∀ d ∈ w', isSpc d = false := fun d hd => hw d (List.mem_cons_of_mem c hd)
    rw [List.cons_append]
    show fieldsGo acc (c :: (w' ++ r)) = _
    rw [fieldsGo, hc]
    simp only [Bool.false_eq_true, if_false]
    rw [ih hw' (c :: acc) r]
    congr 1
    simp

lemma fieldsGo_spc (acc r : List Char) :
    fieldsGo acc (spc :: r) =
      if acc = [] then fieldsGo [] r else acc.reverse :: fieldsGo [] r := by
  have h : isSpc spc = true := by decide
  rw [fieldsGo, h]
  simp

lemma goFields_join (ws : List (List Char))
    (h : ∀ w ∈ ws, w ≠ [] ∧ ∀ c ∈ w, isSpc c = false) :
    goFields (joinWords ws) = ws := by
  induction ws with
  | nil => rfl
  | cons w ws' ih =>
    obtain ⟨hne, hsf⟩ := h w (List.mem_cons_self w ws')
    have h' : ∀ v ∈ ws', v ≠ [] ∧ ∀ c ∈ v, isSpc c = false :=
      fun v hv => h v (List.mem_cons_of_mem w hv)
    cases ws' with
    | nil =>
      show goFields w = [w]
      unfold goFields
      have : w = w ++ ([] : List Char) := by simp
      rw [this, fieldsGo_append_word w hsf [] []]
      rw [fieldsGo]
      simp [hne]
    | cons w2 ws'' =>
      show goFields (w ++ spc :: joinWords (w2 :: ws'')) = _
      unfold goFields
      rw [fieldsGo_append_word w hsf [] (spc :: joinWords (w2 :: ws''))]
      rw [List.append_nil, fieldsGo_spc]
      have hrev : w.reverse ≠ [] := by simpa using hne
      rw [if_neg hrev, List.reverse_reverse]
      exact congrArg (w :: ·) (ih h')

lemma dropWhile_spacefree (l : List Char) (h : ∀ c ∈ l, isSpc c = false) :
    l.dropWhile isSpc = l := by
  cases l with
  | nil => rfl
  | cons c t =>
    rw [List.dropWhile_cons, h c (List.mem_cons_self c t)]
    simp

lemma goTrimRight_append_word (x w : List Char) (hw : w ≠ [])
    (hf : ∀ c ∈ w, isSpc c = false) :
    goTrimRightSpace (x ++ w) = x ++ w := by
  obtain ⟨d, t, hd⟩ : ∃ d t, w.reverse = d :: t := by
    cases hrev : w.reverse with
    | nil => exact absurd (by simpa using hrev) hw
    | cons d t => exact ⟨d, t, rfl⟩
  have hdmem : d ∈ w := by
    have : d ∈ w.reverse := by rw [hd]; exact List.mem_cons_self d t
    simpa using this
  unfold goTrimRightSpace
  rw [List.reverse_append, hd, List.cons_append, List.dropWhile_cons,
    hf d hdmem]
  simp only [Bool.false_eq_true, if_false]
  rw [← List.cons_append, ← hd, ← List.reverse_append, List.reverse_reverse]

lemma goTrimRight_join (ws : List (List Char)) (hne : ws ≠ [])
    (h : ∀ w ∈ ws, w ≠ [] ∧ ∀ c ∈ w, isSpc c = false) :
    ∀ x : List Char, goTrimRightSpace (x ++ joinWords ws) = x ++ joinWords ws := by
  induction ws with
  | nil => exact absurd rfl hne
  | cons w ws' ih =>
    intro x
    obtain ⟨hwne, hwsf⟩ := h w (List.mem_cons_self w ws')
    have h' : ∀ v ∈ ws', v ≠ [] ∧ ∀ c ∈ v, isSpc c = false :=
      fun v hv => h v (List.mem_cons_of_mem w hv)
    cases ws' with
    | nil => exact goTrimRight_append_word x w hwne hwsf
    | cons w2 ws'' =>
      have hjw : joinWords (w :: w2 :: ws'') = w ++ spc :: joinWords (w2 :: ws'') := rfl
      have hassoc : x ++ (w ++ spc :: joinWords (w2 :: ws'')) =
          (x ++ w ++ [spc]) ++ joinWords (w2 :: ws'') := by simp
      rw [hjw, hassoc, ih (by simp) h' (x ++ w ++ [spc])]

lemma parseTerminator_cons (line p0 : List Char) (rest : List (List Char)) (n : Int)
    (h : goFields (goTrimSpace (goTrimPfx terminatorPfxL line)) = p0 :: rest)
    (hs : goScanInt p0 = some n) :
    parseTerminator line = (n, joinWords rest) := by
  simp only [parseTerminator, h, hs]

lemma parseTerminator_badCode (line p0 : List Char) (rest : List (List Char))
    (h : goFields (goTrimSpace (goTrimPfx terminatorPfxL line)) = p0 :: rest)
    (hs : goScanInt p0 = none) :
    parseTerminator line = (-1, joinWords rest) := by
  simp only [parseTerminator, h, hs]

lemma goFields_single (w : List Char) (hne : w ≠ [])
    (hsf : ∀ c ∈ w, isSpc c = false) : goFields w = [w] := by
  unfold goFields
  have : w = w ++ ([] : List Char) := by simp
  rw [this, fieldsGo_append_word w hsf [] []]
  rw [fieldsGo]
  simp [hne]

lemma parseSentinelJoin (cs : List Char) (n : Int) (ws : List (List Char))
    (hcs : cs ≠ []) (hcsf : ∀ c ∈ cs, isSpc c = false)
    (hn : goScanInt cs = some n)
    (hws : ∀ w ∈ ws, w ≠ [] ∧ ∀ c ∈ w, isSpc c = false) :
    parseTerminator (terminatorPfxL ++ spc :: (cs ++ spc :: joinWords ws)) =
      (n, joinWords ws) := by
  have htrimPfx : goTrimPfx terminatorPfxL
      (terminatorPfxL ++ spc :: (cs ++ spc :: joinWords ws)) =
      spc :: (cs ++ spc :: joinWords ws) := by
    unfold goTrimPfx
    rw [if_pos ⟨_, rfl⟩]
    exact List.drop_left _ _
  obtain ⟨c0, cs', hcs0⟩ : ∃ c0 cs', cs = c0 :: cs' := by
    cases cs with
    | nil => exact absurd rfl hcs
    | cons c0 cs' => exact ⟨c0, cs', rfl⟩
  have hleft : goTrimLeftSpace (spc :: (cs ++ spc :: joinWords ws)) =
      cs ++ spc :: joinWords ws := by
    unfold goTrimLeftSpace
    rw [List.dropWhile_cons]
    have : isSpc spc = true := by decide
    rw [this]
    simp only [if_true]
    rw [hcs0, List.cons_append, List.dropWhile_cons,
      hcsf c0 (by rw [hcs0]; exact List.mem_cons_self c0 cs')]
    simp
  have hparts : goFields (goTrimSpace (goTrimPfx terminatorPfxL
      (terminatorPfxL ++ spc :: (cs ++ spc :: joinWords ws)))) = cs :: ws := by
    rw [htrimPfx]
    unfold goTrimSpace
    rw [hleft]
    cases ws with
    | nil =>
      have hright : goTrimRightSpace (cs ++ [spc]) = cs := by
        unfold goTrimRightSpace
        have h1 : (cs ++ [spc] : List Char).reverse = spc :: cs.reverse := by simp
        rw [h1, List.dropWhile_cons]
        have h2 : isSpc spc = true := by decide
        rw [h2]
        simp only [if_true]
        rw [dropWhile_spacefree cs.reverse (fun c hc => hcsf c (by simpa using hc))]
        simp
      show goFields (goTrimRightSpace (cs ++ spc :: joinWords [])) = cs :: []
      have hjw : cs ++ spc :: joinWords [] = cs ++ [spc] := rfl
      rw [hjw, hright]
      exact goFields_single cs hcs hcsf
    | cons w ws' =>
      have hassoc : cs ++ spc :: joinWords (w :: ws') =
          (cs ++ [spc]) ++ joinWords (w :: ws') := by simp
      rw [hassoc, goTrimRight_join (w :: ws') (by simp) hws (cs ++ [spc]),
        ← hassoc]
      unfold goFields
      rw [fieldsGo_append_word cs hcsf [] (spc :: joinWords (w :: ws')),
        List.append_nil, fieldsGo_spc]
      have hrev : cs.reverse ≠ [] := by simpa using hcs
      rw [if_neg hrev, List.reverse_reverse]
      exact congrArg (cs :: ·) (goFields_join (w :: ws') hws)
  exact parseTerminator_cons _ cs ws n hparts hn

/-- C5 (amended): parsing a sentinel line whose exit-code field scans as
`n` and whose directory part is a single-space join of nonempty
whitespace-free words reports exactly that exit code and that joined
directory: the first field after the marker is the exit code, the
reported directory is the space-join of all remaining fields, so a
directory containing (single) spaces is recovered intact.  Runs of
whitespace inside the directory, however, are collapsed by the
field-splitting (see the counterexample). -/
theorem sentinelFieldsRecovered (cs : List Char) (n : Int) (ws : List (List Char))
    (hcs : cs ≠ []) (hcsf : ∀ c ∈ cs, isSpc c = false)
    (hn : goScanInt cs = some n)
    (hws : ∀ w ∈ ws, w ≠ [] ∧ ∀ c ∈ w, isSpc c = false) :
    parseTerminator (terminatorPfxL ++ spc :: (cs ++ spc :: joinWords ws)) =
      (n, joinWords ws) :=
  parseSentinelJoin cs n ws hcs hcsf hn hws

/-- C5 witness: a directory of single-space-separated words round-trips
through the sentinel parser. -/
theorem sentinelFieldsRecovered_witness :
    parseTerminator (terminatorPfxL ++ spc ::
        ("7".toList ++ spc :: joinWords ["/tmp/my".toList, "dir".toList])) =
      (7, joinWords ["/tmp/my".toList, "dir".toList]) :=
  sentinelFieldsRecovered "7".toList 7 ["/tmp/my".toList, "dir".toList]
    (by decide) (by decide) (by decide) (by decide)

/-- C5 counterexample: a working directory containing a run of two
spaces is NOT recovered intact — the parser's field-split-and-rejoin
collapses the run to a single space, so the reported directory is not
"everything after the exit code". -/
theorem sentinelSpacesCollapsed :
    parseTerminator ("__OPENHANDS_COMMAND_DONE__ 0 /a  b".toList) ≠
        (0, "/a  b".toList) ∧
      parseTerminator ("__OPENHANDS_COMMAND_DONE__ 0 /a  b".toList) =
        (0, "/a b".toList) := by
  constructor
  · decide
  · decide

/-- C10: a terminator line whose exit-code field does not scan as a
decimal integer still signals completion (it is classified `done`, never
forwarded as output), and the reported exit code is the initialized
default `-1`. -/
theorem unparsableExitCodeCompletes (line : String) (f0 : List Char)
    (rest : List (List Char))
    (hpfx : terminatorPfxL <+: line.toList)
    (hfields : goFields (goTrimSpace (goTrimPfx terminatorPfxL line.toList)) =
      f0 :: rest)
    (hbad : goScanInt f0 = none) :
    classifyStdoutLine line = .done (-1) (String.mk (joinWords rest)) := by
  unfold classifyStdoutLine
  rw [if_pos hpfx]
  rw [parseTerminator_badCode line.toList f0 rest hfields hbad]

/-- C10 witness: a concrete garbage exit-code field still completes with
exit code −1 and the directory is still recovered. -/
theorem unparsableExitCodeCompletes_witness :
    classifyStdoutLine "__OPENHANDS_COMMAND_DONE__ xyz /tmp" =
      .done (-1) "/tmp" := by
  have h := unparsableExitCodeCompletes "__OPENHANDS_COMMAND_DONE__ xyz /tmp"
    "xyz".toList ["/tmp".toList] (by decide) (by decide) (by decide)
  simpa using h

/-- C4 counterexample: with no cwd override the session's current
working directory is used verbatim — it is NOT normalized, so the
resolved path of an uncleaned session cwd differs from its cleaned
form; "always normalized (cleaned)" fails. -/
theorem resolveTargetWd_notAlwaysClean :
    resolveTargetWd "/a/../b" "" = "/a/../b" ∧
      filepathClean "/a/../b" = "/b" ∧
      resolveTargetWd "/a/../b" "" ≠ filepathClean (resolveTargetWd "/a/../b" "") := by
  refine ⟨rfl, by decide, by decide⟩

/-- C4 (amended): the target working directory is resolved exactly as
the code does — no override keeps the session's current working
directory verbatim (without cleaning); an absolute override is cleaned
as-is; a relative override is joined against the session cwd and
cleaned.  Normalization therefore applies only when an override is
given. -/
theorem resolveTargetWd_spec (s c : String) :
    resolveTargetWd s c =
      if c = "" then s
      else filepathClean (if filepathIsAbs c then c else filepathJoin s c) := by
  by_cases hc : c = ""
  · simp [resolveTargetWd, hc]
  · simp [resolveTargetWd, hc]

/-- C7 counterexample: in the cmd_execution.go variant of
`executeCmdRun`, an invocation with `hard_timeout = 0` does NOT run free
of a coordinator-imposed deadline — the default 300-second timeout is
applied. -/
theorem streamingDeadline_default :
    (0 : Int) ≤ 0 ∧ streamingCmdDeadline 0 ≠ none ∧
      streamingCmdDeadline 0 = some 300 := by
  refine ⟨le_refl 0, by decide, by decide⟩

/-- C7 (amended): with `hard_timeout ≤ 0` the persistent-bash
coordinator imposes no deadline of its own (the scope is bound only by
the caller's cancellation), while the cmd_execution.go draft applies the
default 300-second timeout. -/
theorem cmdDeadline_spec (hardTimeout : Int) (h : hardTimeout ≤ 0) :
    persistentCmdDeadline hardTimeout = none ∧
      streamingCmdDeadline hardTimeout = some defaultCommandTimeout := by
  have hnot : ¬(0 < hardTimeout) := not_lt.mpr h
  constructor
  · simp [persistentCmdDeadline, hnot]
  · simp [streamingCmdDeadline, hnot]

/-- C7 witness: the amended statement at `hard_timeout = 0`. -/
theorem cmdDeadline_spec_witness :
    persistentCmdDeadline 0 = none ∧
      streamingCmdDeadline 0 = some defaultCommandTimeout :=
  cmdDeadline_spec 0 (le_refl 0)

/-! ## Command protocol encoder and the emitted fragment's semantics -/

lemma strToList_append (a b : String) : (a ++ b).toList = a.toList ++ b.toList := by
  cases a; cases b; rfl

lemma strMk_toList (s : String) : String.mk s.toList = s := rfl

/-- Supporting fact: with an empty command but a non-existent target
directory the wrapped fragment captures the `cd` failure code 1, not 0
(spec §8 sample 4 agrees: a bad cwd yields the shell's cd-failure
code). -/
lemma emptyCommandCdFailure :
    (evalWrappedCommand noDirsWorld "/" "/nonexistent-xyz" "").1 = 1 ∧
      (evalWrappedCommand noDirsWorld "/" "/nonexistent-xyz" "").1 ≠ 0 := by
  constructor
  · decide
  · decide

/-- Supporting fact (sentinel level): for an empty command string the
encoder substitutes the no-op `true`; when the directory change
succeeds the wrapped fragment yields exit code 0, and the echoed
sentinel line is well formed: it classifies as completion with exit
code 0 and reports the target directory. -/
lemma emptyCommandSentinel (w : ShellWorld) (cwd0 targetWd : String)
    (hdir : w.dirOk targetWd = true)
    (hne : targetWd.toList ≠ [])
    (hsf : ∀ c ∈ targetWd.toList, isSpc c = false) :
    actualCommandToRunInBash "" = "true" ∧
      evalWrappedCommand w cwd0 targetWd "" = (0, targetWd) ∧
      classifyStdoutLine (sentinelLineFor 0 targetWd) = .done 0 targetWd := by
  refine ⟨rfl, ?_, ?_⟩
  · simp [evalWrappedCommand, cdExitCode, hdir, subshellExitCode,
      actualCommandToRunInBash]
  · have hassoc : sentinelLineFor 0 targetWd =
        (terminatorPfx ++ " " ++ toString (0 : Int) ++ " ") ++ targetWd := by
      unfold sentinelLineFor
      rw [String.append_assoc]
    have hpre : (terminatorPfx ++ " " ++ toString (0 : Int) ++ " ").toList =
        terminatorPfxL ++ spc :: ('0' :: [spc]) := by decide
    have hlist : (sentinelLineFor 0 targetWd).toList =
        terminatorPfxL ++ spc :: (['0'] ++ spc :: joinWords [targetWd.toList]) := by
      rw [hassoc, strToList_append, hpre]
      simp [joinWords]
    have hparse : parseTerminator (sentinelLineFor 0 targetWd).toList =
        (0, joinWords [targetWd.toList]) := by
      rw [hlist]
      exact parseSentinelJoin ['0'] 0 [targetWd.toList]
        (by decide) (by decide) (by decide)
        (fun v hv => by
          rcases List.mem_singleton.mp hv with rfl
          exact ⟨hne, hsf⟩)
    have hpfx : terminatorPfxL <+: (sentinelLineFor 0 targetWd).toList :=
      ⟨spc :: (['0'] ++ spc :: joinWords [targetWd.toList]), hlist.symm⟩
    unfold classifyStdoutLine
    rw [if_pos hpfx]
    rw [hparse]
    show LineClass.done 0 (String.mk (joinWords [targetWd.toList])) = _
    have : joinWords [targetWd.toList] = targetWd.toList := rfl
    rw [this, strMk_toList]

/-- Instance of the sentinel-level fact at a concrete world. -/
lemma emptyCommandSentinel_concrete :
    actualCommandToRunInBash "" = "true" ∧
      evalWrappedCommand { dirOk := fun _ => true, exec := fun _ => 7 }
          "/" "/workspace" "" = (0, "/workspace") ∧
      classifyStdoutLine (sentinelLineFor 0 "/workspace") =
        .done 0 "/workspace" :=
  emptyCommandSentinel { dirOk := fun _ => true, exec := fun _ => 7 } "/"
    "/workspace" rfl (by decide) (by decide)

lemma hasPfxB_self_append (p r : List Char) : hasPfxB p (p ++ r) = true := by
  induction p with
  | nil => rfl
  | cons c cs ih => simp [hasPfxB, ih]

lemma containsSub_cons (c : Char) (rest pat : List Char) :
    containsSub (c :: rest) pat =
      (hasPfxB pat (c :: rest) || containsSub rest pat) := rfl

lemma containsSub_nil_pat (l : List Char) : containsSub l [] = true := by
  cases l with
  | nil => rfl
  | cons c rest => rw [containsSub_cons]; rfl

lemma containsSub_append_mid (a m b : List Char) :
    containsSub (a ++ (m ++ b)) m = true := by
  induction a with
  | nil =>
    cases m with
    | nil => simpa using containsSub_nil_pat b
    | cons x ms =>
      show containsSub ((x :: ms) ++ b) (x :: ms) = true
      rw [List.cons_append, containsSub_cons, ← List.cons_append,
        hasPfxB_self_append (x :: ms) b]
      rfl
  | cons c a' ih =>
    show containsSub (c :: (a' ++ (m ++ b))) m = true
    rw [containsSub_cons, ih]
    simp

lemma runMainLoop_not_returned (ht : Int) (hp : Bool) (pre : List BashEvent) :
    ∀ st : CoordSt, st.returned = false → (∀ ev ∈ pre, nonBreaking ev) →
      (runMainLoop ht hp st pre).returned = false := by
  induction pre with
  | nil => intro st hst _; exact hst
  | cons ev rest ih =>
    intro st hst hpre
    obtain ⟨h1, h2, h3⟩ := hpre ev (List.mem_cons_self ev rest)
    show (runMainLoop ht hp (loopStep ht hp st ev) rest).returned = false
    refine ih (loopStep ht hp st ev) ?_
      (fun e he => hpre e (List.mem_cons_of_mem ev he))
    unfold loopStep
    rw [hst]
    simp only [Bool.false_eq_true, if_false]
    cases ev with
    | outLine s => rfl
    | outClosed => exact absurd rfl h1
    | ioErr m => rfl
    | doneSig code pwd => exact absurd rfl (h3 code pwd)
    | ctxDone => exact absurd rfl h2

/-- C1: when a positive hard timeout expires before the command
completes (a trace of non-breaking events followed by the context-done
firing), `executeCmdRun` returns a command observation with exit code
−1 whose content contains the timeout marker string, the process-group
canceller is invoked before returning, and no Go-level error escapes. -/
theorem timeoutForcesMinusOneAndSigint (session : BashSessionSt)
    (action : CmdRunActionM) (pre : List BashEvent)
    (hproc : session.hasProcess = true)
    (_hht : 0 < action.hardTimeout)
    (hpre : ∀ ev ∈ pre, nonBreaking ev) :
    (executeCmdRunModel session action none (pre ++ [.ctxDone])).obs.exitCodeOf
        = some (-1) ∧
      strContainsB
        (executeCmdRunModel session action none (pre ++ [.ctxDone])).obs.contentOf
        timeoutMarker = true ∧
      (executeCmdRunModel session action none
        (pre ++ [.ctxDone])).cancellerInvoked = true ∧
      (executeCmdRunModel session action none (pre ++ [.ctxDone])).goErr = none := by
  have hmid : (runMainLoop action.hardTimeout session.hasProcess
      (initCoordSt session.currentBashCwd) pre).returned = false :=
    runMainLoop_not_returned action.hardTimeout session.hasProcess pre
      (initCoordSt session.currentBashCwd) rfl hpre
  set mid := runMainLoop action.hardTimeout session.hasProcess
    (initCoordSt session.currentBashCwd) pre with hmiddef
  have hfold : runMainLoop action.hardTimeout session.hasProcess
      (initCoordSt session.currentBashCwd) (pre ++ [.ctxDone]) =
      loopStep action.hardTimeout session.hasProcess mid .ctxDone := by
    unfold runMainLoop
    rw [List.foldl_append]
    rfl
  have hstep : loopStep action.hardTimeout session.hasProcess mid .ctxDone =
      { mid with buffer := mid.buffer ++ timeoutNotice action.hardTimeout,
                 cancellerInvoked := session.hasProcess, exitCode := -1,
                 returned := true } := by
    unfold loopStep
    rw [hmid]
    simp
  have hcontains : strContainsB (mid.buffer ++ timeoutNotice action.hardTimeout)
      timeoutMarker = true := by
    unfold strContainsB
    rw [strToList_append]
    unfold timeoutNotice
    rw [strToList_append]
    have hshape : mid.buffer.toList ++
        (("\n" : String).toList ++ (timeoutMarker ++
          (goDurationStr action.hardTimeout ++ " or was cancelled.]\n")).toList) =
        (mid.buffer.toList ++ ("\n" : String).toList) ++
          (timeoutMarker.toList ++
            (goDurationStr action.hardTimeout ++ " or was cancelled.]\n").toList) := by
      rw [strToList_append]
      simp
    rw [hshape]
    exact containsSub_append_mid _ _ _
  have hr : executeCmdRunModel session action none (pre ++ [.ctxDone]) =
      { obs := .cmdObs
          (runMainLoop action.hardTimeout session.hasProcess
            (initCoordSt session.currentBashCwd) (pre ++ [.ctxDone])).buffer
          (runMainLoop action.hardTimeout session.hasProcess
            (initCoordSt session.currentBashCwd) (pre ++ [.ctxDone])).exitCode,
        goErr := none, lockReleased := true,
        cancellerInvoked := (runMainLoop action.hardTimeout session.hasProcess
          (initCoordSt session.currentBashCwd) (pre ++ [.ctxDone])).cancellerInvoked,
        finalSessionCwd := (runMainLoop action.hardTimeout session.hasProcess
          (initCoordSt session.currentBashCwd) (pre ++ [.ctxDone])).sessionCwd } := rfl
  rw [hr, hfold, hstep]
  exact ⟨rfl, hcontains, hproc, rfl⟩

/-- C1 witness: a concrete one-line trace ending in a timeout. -/
theorem timeoutForcesMinusOneAndSigint_witness :
    (executeCmdRunModel ⟨"/w", true⟩ ⟨"sleep 5", "", 1⟩ none
        ([.outLine "x\n"] ++ [.ctxDone])).obs.exitCodeOf = some (-1) ∧
      strContainsB (executeCmdRunModel ⟨"/w", true⟩ ⟨"sleep 5", "", 1⟩ none
        ([.outLine "x\n"] ++ [.ctxDone])).obs.contentOf timeoutMarker = true ∧
      (executeCmdRunModel ⟨"/w", true⟩ ⟨"sleep 5", "", 1⟩ none
        ([.outLine "x\n"] ++ [.ctxDone])).cancellerInvoked = true ∧
      (executeCmdRunModel ⟨"/w", true⟩ ⟨"sleep 5", "", 1⟩ none
        ([.outLine "x\n"] ++ [.ctxDone])).goErr = none :=
  timeoutForcesMinusOneAndSigint ⟨"/w", true⟩ ⟨"sleep 5", "", 1⟩
    [.outLine "x\n"] rfl (by decide)
    (by intro ev hev
        rcases List.mem_singleton.mp hev with rfl
        exact ⟨nofun, nofun, nofun⟩)

/-- C8: when writing the encoded command to the shell's stdin fails,
`executeCmdRun` returns an error observation whose error type is
`BashIOError`, the Go-level error return is nil (nothing propagates to
the transport), and the deferred session-lock release still runs — for
every session, action, error message and would-be event trace. -/
theorem stdinWriteFailureIsBashIOError (session : BashSessionSt)
    (action : CmdRunActionM) (msg : String) (events : List BashEvent) :
    (executeCmdRunModel session action (some msg) events).obs =
        .errorObs "BashIOError" ("Failed to write command to bash stdin: " ++ msg) ∧
      (executeCmdRunModel session action (some msg) events).goErr = none ∧
      (executeCmdRunModel session action (some msg) events).lockReleased = true ∧
      (executeCmdRunModel session action (some msg) events).finalSessionCwd =
        session.currentBashCwd :=
  ⟨rfl, rfl, rfl, rfl⟩

lemma lockInv_of_reachable {s : TwoInvocations} (h : BashLockReachable s) :
    LockInv s := by
  induction h with
  | init => exact ⟨by simp, by simp⟩
  | step _ hstep ih =>
    obtain ⟨ih1, ih2⟩ := ih
    cases hstep with
    | acquireFirst p2 =>
      refine ⟨by simp, ?_⟩
      constructor
      · intro h2
        exact absurd (ih2.mp h2) (by simp)
      · intro h2
        exact absurd h2 (by simp)
    | acquireSecond p1 =>
      refine ⟨?_, by simp⟩
      constructor
      · intro h1
        exact absurd (ih1.mp h1) (by simp)
      · intro h1
        exact absurd h1 (by simp)
    | releaseFirst p2 o =>
      refine ⟨by simp, ?_⟩
      constructor
      · intro h2
        have : o = some true := ih2.mp h2
        have h1 : (⟨.running, p2, o⟩ : TwoInvocations).first = .running := rfl
        have : o = some false := ih1.mp h1
        simp_all
      · intro h2
        exact absurd h2 (by simp)
    | releaseSecond p1 o =>
      refine ⟨?_, by simp⟩
      constructor
      · intro h1
        have : o = some false := ih1.mp h1
        have h2 : (⟨p1, .running, o⟩ : TwoInvocations).second = .running := rfl
        have : o = some true := ih2.mp h2
        simp_all
      · intro h1
        exact absurd h1 (by simp)

/-- C2: in every reachable state of two concurrent invocations the
session's exclusive lock serializes execution: the two bodies are never
inside the critical section at once (no OS-process-level interleaving),
and while the first invocation holds the lock no transition can put the
second into the critical section — it stays blocked until the first's
release. -/
theorem bashMutexSerializes (s t : TwoInvocations)
    (hreach : BashLockReachable s) (hstep : BashLockStep s t) :
    ¬(s.first = .running ∧ s.second = .running) ∧
      (s.first = .running → t.second ≠ .running) := by
  obtain ⟨inv1, inv2⟩ := lockInv_of_reachable hreach
  constructor
  · rintro ⟨h1, h2⟩
    have hf : s.lockOwner = some false := inv1.mp h1
    have ht : s.lockOwner = some true := inv2.mp h2
    rw [hf] at ht
    simp at ht
  · intro h1
    have hf : s.lockOwner = some false := inv1.mp h1
    cases hstep with
    | acquireFirst p2 => simp at hf
    | acquireSecond p1 => simp at hf
    | releaseFirst p2 o =>
      intro h2
      have hs2 : (⟨.running, p2, o⟩ : TwoInvocations).second = .running := h2
      have : o = some true := inv2.mp hs2
      rw [this] at hf
      simp at hf
    | releaseSecond p1 o =>
      have hs2 : (⟨p1, .running, o⟩ : TwoInvocations).second = .running := rfl
      have : o = some true := inv2.mp hs2
      rw [this] at hf
      simp at hf

/-- C2 witness: from the initial state, after the first caller acquires
the lock, a release step by the first cannot put the second into the
critical section. -/
theorem bashMutexSerializes_witness :
    ¬((⟨.running, .waiting, some false⟩ : TwoInvocations).first = .running ∧
        (⟨.running, .waiting, some false⟩ : TwoInvocations).second = .running) ∧
      ((⟨.running, .waiting, some false⟩ : TwoInvocations).first = .running →
        (⟨.finished, .waiting, none⟩ : TwoInvocations).second ≠ .running) :=
  bashMutexSerializes ⟨.running, .waiting, some false⟩ ⟨.finished, .waiting, none⟩
    (BashLockReachable.step BashLockReachable.init
      (BashLockStep.acquireFirst .waiting))
    (BashLockStep.releaseFirst .waiting (some false))

/-- C9: delivery of a non-sentinel output line to a registered output
channel that is full is non-blocking: the send reports failure, the
channel is left exactly as it was (the line is dropped, not waited on),
and the distributor still produces a next state for every registry —
the shared reader thread is never blocked by a stalled consumer. -/
theorem fullChannelDropsLine (chans : List BoundedChan) (line : String)
    (i : Nat) (ch : BoundedChan)
    (hch : chans[i]? = some ch)
    (hfull : ch.capacity ≤ ch.buffered.length) :
    (distributeLine chans line)[i]? = some ch ∧
      (chanTrySend ch line).2 = false ∧
      (distributeLine chans line).length = chans.length := by
  have hnot : ¬(ch.buffered.length < ch.capacity) := not_lt.mpr hfull
  have hsend : chanTrySend ch line = (ch, false) := by
    unfold chanTrySend
    rw [if_neg hnot]
  refine ⟨?_, by rw [hsend], by simp [distributeLine]⟩
  unfold distributeLine
  rw [List.getElem?_map, hch]
  simp [hsend]

/-- C9 witness: a registry with one full channel (capacity 1, one
buffered line) drops the next line and leaves the channel unchanged. -/
theorem fullChannelDropsLine_witness :
    (distributeLine [⟨1, ["x"]⟩] "y")[0]? = some ⟨1, ["x"]⟩ ∧
      (chanTrySend ⟨1, ["x"]⟩ "y").2 = false ∧
      (distributeLine [⟨1, ["x"]⟩] "y").length = [(⟨1, ["x"]⟩ : BoundedChan)].length :=
  fullChannelDropsLine [⟨1, ["x"]⟩] "y" 0 ⟨1, ["x"]⟩ rfl (by decide)

/-- C6 (code bug), evaluated at the failing input: empty command, no
override, session cwd `/w` exists (so `cd` succeeds), hard timeout 1 s.
The encoder and shell do their part — the wrapped fragment yields exit
code 0 and the echoed sentinel classifies as completion with code 0 —
but the coordinator's `doneChan` select case (src/unnamed/part_008:419-426,
src/unnamed/part_011:278-285) contains no `break mainLoop` and
`close(outputChan)` happens only on the stdin-write-failure path, so
processing the completion signal leaves the loop running; the invocation
returns only when the context expires, which forces exit code −1
(part_008:445).  The returned exit code is therefore −1, never the
claimed 0 — contradicting spec §4.4 step 7 (completion is a return
path), §8 ("An empty command string returns exit code 0") and the
repository's own tests, which expect exit code 0 for successful
commands. -/
theorem emptyCommandReturnBug :
    (evalWrappedCommand allDirsWorld "/w" "/w" "").1 = 0 ∧
      classifyStdoutLine (sentinelLineFor 0 "/w") = .done 0 "/w" ∧
      (runMainLoop 1 true (initCoordSt "/w") [.doneSig 0 "/w"]).returned = false ∧
      (executeCmdRunModel ⟨"/w", true⟩ ⟨"", "", 1⟩ none
          [.doneSig 0 "/w", .ctxDone]).obs.exitCodeOf = some (-1) ∧
      (executeCmdRunModel ⟨"/w", true⟩ ⟨"", "", 1⟩ none
          [.doneSig 0 "/w", .ctxDone]).obs.exitCodeOf ≠ some 0 := by
  refine ⟨by decide, by decide, by decide, by decide, by decide⟩

end OpenhandsRuntime

